import Mathlib

/-!
Verification of the minesweeper terminal game engine (src/mine.c).

The grid engine is embedded shallowly: the C struct Grid becomes a Lean
structure, the C array of 100 cells becomes a list of cells indexed by
idx = row * COLS + col, the C rand() stream becomes an explicit list of
natural numbers consumed two at a time by the mine-placement loop, and
the C assert calls become Option results (none models an assertion
failure).
-/

namespace Mines

/-- The C enum Cell_Type, including its COUNT sentinel constructor. -/
inductive Cell_Type
  | EMPTY
  | MINE
  | COUNT
deriving DecidableEq

/-- The C struct Cell: a kind tag plus the open and flag booleans. -/
structure Cell where
  type : Cell_Type
  isOpen : Bool
  flag : Bool
deriving DecidableEq

def COLS : Nat := 10
def ROWS : Nat := 10

/-- The C struct Grid: 100 cells, cursor, mine target, open counter. -/
structure Grid where
  cells : List Cell
  cur_row : Nat
  cur_col : Nat
  mines_count : Nat
  open_cells_count : Nat
deriving DecidableEq

/-- Placeholder cell used as the default of list lookups; every theorem
either guarantees the index is within the 100-cell array or talks about
the lookup result itself. -/
def dummyCell : Cell := ⟨Cell_Type.EMPTY, false, false⟩

/-- C cell_at: asserts idx < ROWS*COLS, then reads the array.  The
assertion failure is modelled as none. -/
def cell_at (grid : Grid) (row col : Nat) : Option Cell :=
  let idx := row * COLS + col
  if idx < ROWS * COLS then some (grid.cells.getD idx dummyCell) else none

/-- C set_cell: overwrites only the type field of the cell at
idx = row*COLS + col.  List.set ignores out-of-range indices, matching
the fact that the C code only ever calls set_cell in bounds. -/
def set_cell (grid : Grid) (row col : Nat) (c : Cell_Type) : Grid :=
  let idx := row * COLS + col
  { grid with
    cells := grid.cells.set idx { grid.cells.getD idx dummyCell with type := c } }

/-- C clear_grid: every one of the ROWS*COLS cells becomes
Empty/closed/unflagged, the cursor returns to (0,0) and the open
counter to 0.  mines_count is not touched, exactly as in the C code. -/
def clear_grid (grid : Grid) : Grid :=
  { grid with
    cells := List.replicate (ROWS * COLS) dummyCell
    cur_row := 0
    cur_col := 0
    open_cells_count := 0 }

/-- C randi: rand() % (max_inclusive + 1), with the rand() result given
explicitly. -/
def randi (n maxInclusive : Nat) : Nat := n % (maxInclusive + 1)

/-- The while loop of C randomize_grid.  The entropy list holds the
successive rand() results; each iteration consumes two of them.  none
models the loop still running when the supplied entropy is exhausted
(the C loop would keep calling rand()). -/
def randomize_go : List Nat → Grid → Nat → Option Grid
  | entropy, grid, placed =>
    if placed < grid.mines_count then
      match entropy with
      | r1 :: r2 :: rest =>
        let rr := randi r1 (ROWS - 1)
        let cc := randi r2 (COLS - 1)
        match cell_at grid rr cc with
        | some cell =>
          if cell.type = Cell_Type.MINE then
            randomize_go rest grid placed
          else
            randomize_go rest (set_cell grid rr cc Cell_Type.MINE) (placed + 1)
        | none => none
      | _ => none
    else some grid

/-- C randomize_grid: place grid.mines_count mines by rejection
sampling, starting from placed = 0. -/
def randomize_grid (grid : Grid) (entropy : List Nat) : Option Grid :=
  randomize_go entropy grid 0

/-- C init_grid: clear, store the mine target, then randomize. -/
def init_grid (grid : Grid) (mines_count : Nat) (entropy : List Nat) : Option Grid :=
  randomize_grid { clear_grid grid with mines_count := mines_count } entropy

/-- The eight (dy, dx) offsets visited by the C count_nbors loops, in
loop order; the continue on dx = dy = 0 removes the centre. -/
def nbor_offsets : List (Int × Int) :=
  [(-1, -1), (-1, 0), (-1, 1), (0, -1), (0, 1), (1, -1), (1, 0), (1, 1)]

/-- The bounds test of C count_nbors for one offset, as a predicate on
the (dy, dx) pair. -/
def offset_in_bounds (row col : Nat) (p : Int × Int) : Bool :=
  let r : Int := (row : Int) + p.1
  let c : Int := (col : Int) + p.2
  decide (0 ≤ r ∧ r < (ROWS : Int) ∧ 0 ≤ c ∧ c < (COLS : Int))

/-- The in-bounds Moore neighbourhood of (row, col): the offsets the C
count_nbors loop does not skip. -/
def inb_nbors (row col : Nat) : List (Int × Int) :=
  nbor_offsets.filter (offset_in_bounds row col)

/-- Whether the cell at offset p from (row, col) holds a mine. -/
def mine_at (grid : Grid) (row col : Nat) (p : Int × Int) : Bool :=
  let r : Int := (row : Int) + p.1
  let c : Int := (col : Int) + p.2
  decide ((grid.cells.getD (r.toNat * COLS + c.toNat) dummyCell).type = Cell_Type.MINE)

/-- The body of the C count_nbors double loop, one offset at a time.
Out-of-bounds neighbour positions are skipped before cell_at is called;
a cell_at assertion failure propagates as none. -/
def count_nbors_go (grid : Grid) (row col : Nat) : List (Int × Int) → Nat → Option Nat
  | [], acc => some acc
  | p :: rest, acc =>
    let r : Int := (row : Int) + p.1
    let c : Int := (col : Int) + p.2
    if r < 0 ∨ r ≥ (ROWS : Int) ∨ c < 0 ∨ c ≥ (COLS : Int) then
      count_nbors_go grid row col rest acc
    else
      match cell_at grid r.toNat c.toNat with
      | some cell =>
        count_nbors_go grid row col rest
          (if cell.type = Cell_Type.MINE then acc + 1 else acc)
      | none => none

/-- C count_nbors: count the mines among the in-bounds Moore
neighbours of (row, col). -/
def count_nbors (grid : Grid) (row col : Nat) : Option Nat :=
  count_nbors_go grid row col nbor_offsets 0

/-- Modelled from the spec: the C main loop has no outcome values; the
spec names the three results of reveal_at_cursor AlreadyOpen, Opened
and Detonated, with AlreadyOpen taken whenever the cell under the
cursor was already revealed, Detonated when a concealed Mine is
revealed, Opened when a concealed Empty cell is revealed. -/
inductive RevealOutcome
  | AlreadyOpen
  | Opened
  | Detonated
deriving DecidableEq

/-- The body of the reveal-all double loop in main (case ' '): open the
cell at index i if it is still closed, bumping the counter. -/
def open_cell (g : Grid) (i : Nat) : Grid :=
  let cell := g.cells.getD i dummyCell
  if cell.isOpen then g
  else
    { g with
      cells := g.cells.set i { cell with isOpen := true }
      open_cells_count := g.open_cells_count + 1 }

/-- The reveal-all double loop in main (case ' '): indices 0..99 in row
major order. -/
def reveal_all (g : Grid) : Grid :=
  (List.range (ROWS * COLS)).foldl open_cell g

/-- main, case ' ' (reveal at cursor): assert the cursor index is in
range, open the cell if closed, and if the cell type is MINE (checked
even when it was already open) reveal the whole grid.  The outcome
label follows the spec wording: AlreadyOpen when the cell was open,
otherwise Detonated for a mine and Opened for an empty cell. -/
def reveal (grid : Grid) : Option (Grid × RevealOutcome) :=
  let idx := grid.cur_row * COLS + grid.cur_col
  if idx < COLS * ROWS then
    let cell0 := grid.cells.getD idx dummyCell
    let g1 :=
      if cell0.isOpen then grid
      else
        { grid with
          cells := grid.cells.set idx { cell0 with isOpen := true }
          open_cells_count := grid.open_cells_count + 1 }
    if (g1.cells.getD idx dummyCell).type = Cell_Type.MINE then
      some (reveal_all g1,
        if cell0.isOpen then RevealOutcome.AlreadyOpen else RevealOutcome.Detonated)
    else
      some (g1,
        if cell0.isOpen then RevealOutcome.AlreadyOpen else RevealOutcome.Opened)
  else none

/-- main, case 'f' (toggle flag at cursor): assert the cursor index is
in range, then negate the flag bit of that cell. -/
def toggle_flag (grid : Grid) : Option Grid :=
  let idx := grid.cur_row * COLS + grid.cur_col
  if idx < COLS * ROWS then
    let cell := grid.cells.getD idx dummyCell
    some { grid with cells := grid.cells.set idx { cell with flag := !cell.flag } }
  else none

/-- The four cursor directions: Up/Down/Left/Right are the keys
w/s/a/d of main. -/
inductive Direction
  | Up
  | Down
  | Left
  | Right
deriving DecidableEq

/-- main, cases 'w', 'a', 's', 'd': one-step cursor moves guarded by
the boundary tests of the C switch. -/
def move_cursor (grid : Grid) (d : Direction) : Grid :=
  match d with
  | Direction.Right =>
    if grid.cur_col < COLS - 1 then { grid with cur_col := grid.cur_col + 1 } else grid
  | Direction.Left =>
    if grid.cur_col > 0 then { grid with cur_col := grid.cur_col - 1 } else grid
  | Direction.Down =>
    if grid.cur_row < ROWS - 1 then { grid with cur_row := grid.cur_row + 1 } else grid
  | Direction.Up =>
    if grid.cur_row > 0 then { grid with cur_row := grid.cur_row - 1 } else grid

/-- Number of MINE cells in a cell list. -/
def countMines (l : List Cell) : Nat :=
  l.countP (fun c => decide (c.type = Cell_Type.MINE))

/-- Number of EMPTY cells in a cell list. -/
def countEmpty (l : List Cell) : Nat :=
  l.countP (fun c => decide (c.type = Cell_Type.EMPTY))

/-- Number of open cells in a cell list. -/
def countOpen (l : List Cell) : Nat :=
  l.countP (fun c => c.isOpen)

/-- Every cell of the grid is revealed. -/
def AllOpen (g : Grid) : Prop :=
  ∀ c ∈ g.cells, c.isOpen = true

/-- Some MINE cell of the grid is revealed. -/
def MineOpen (g : Grid) : Prop :=
  ∃ c ∈ g.cells, c.type = Cell_Type.MINE ∧ c.isOpen = true

/-- Every cell is closed, unflagged, and not the COUNT sentinel: the
shape of a freshly cleared or freshly initialized cell array. -/
def Pristine (l : List Cell) : Prop :=
  ∀ c ∈ l, c.isOpen = false ∧ c.flag = false ∧ c.type ≠ Cell_Type.COUNT

/-- Grid states reachable through the engine: some initialization
succeeded, followed by any sequence of cursor moves, reveals, flag
toggles and resets (a reset is init_grid on the current grid). -/
inductive Reachable : Grid → Prop
  | init (g0 : Grid) (n : Nat) (e : List Nat) (g : Grid) :
      init_grid g0 n e = some g → Reachable g
  | move (g : Grid) (d : Direction) :
      Reachable g → Reachable (move_cursor g d)
  | reveal_step (g g2 : Grid) (o : RevealOutcome) :
      Reachable g → reveal g = some (g2, o) → Reachable g2
  | flag_step (g g2 : Grid) :
      Reachable g → toggle_flag g = some g2 → Reachable g2
  | reset (g : Grid) (n : Nat) (e : List Nat) (g2 : Grid) :
      Reachable g → init_grid g n e = some g2 → Reachable g2

/-- A cell with its open bit forced on; the shape every cell takes
after the reveal-all loop. -/
def openify (c : Cell) : Cell := { c with isOpen := true }

lemma openify_idem (c : Cell) : openify (openify c) = openify c := rfl

lemma openify_eq_self (c : Cell) (h : c.isOpen = true) : openify c = c := by
  cases c
  simp_all [openify]

lemma grid_ext (g1 g2 : Grid) (h1 : g1.cells = g2.cells) (h2 : g1.cur_row = g2.cur_row)
    (h3 : g1.cur_col = g2.cur_col) (h4 : g1.mines_count = g2.mines_count)
    (h5 : g1.open_cells_count = g2.open_cells_count) : g1 = g2 := by
  cases g1
  cases g2
  simp_all

lemma getD_set {α : Type} (l : List α) (i j : Nat) (a d : α) :
    (l.set i a).getD j d = if i = j ∧ i < l.length then a else l.getD j d := by
  by_cases hj : j < l.length
  · have hj2 : j < (l.set i a).length := by simpa using hj
    rw [List.getD_eq_getElem _ _ hj2, List.getD_eq_getElem _ _ hj, List.getElem_set]
    by_cases hij : i = j
    · subst hij
      simp [hj]
    · simp [hij]
  · have hle : l.length ≤ j := Nat.le_of_not_lt hj
    rw [List.getD_eq_default _ _ (by simpa using hle), List.getD_eq_default _ _ hle]
    have hcond : ¬ (i = j ∧ i < l.length) := by
      rintro ⟨rfl, hi⟩
      exact hj hi
    simp [hcond]

lemma countP_set_of_not {α : Type} (p : α → Bool) (l : List α) (i : Nat) (a d : α)
    (hi : i < l.length) (hp : p (l.getD i d) = false) :
    List.countP p (l.set i a) = List.countP p l + (if p a then 1 else 0) := by
  rw [List.countP_set p l i a hi]
  rw [List.getD_eq_getElem _ _ hi] at hp
  simp [hp]

lemma countP_set_same {α : Type} (p : α → Bool) (l : List α) (i : Nat) (a d : α)
    (hi : i < l.length) (hp : p a = p (l.getD i d)) :
    List.countP p (l.set i a) = List.countP p l := by
  rw [List.countP_set p l i a hi]
  rw [List.getD_eq_getElem _ _ hi] at hp
  cases h : p a with
  | false =>
    rw [h] at hp
    simp [h, ← hp]
  | true =>
    rw [h] at hp
    have hpos : 0 < List.countP p l :=
      List.countP_pos_iff.mpr ⟨l[i], List.getElem_mem hi, hp.symm⟩
    simp only [h, ← hp, if_true]
    omega

lemma map_getD_range {α : Type} (l : List α) (d : α) :
    (List.range l.length).map (fun i => l.getD i d) = l := by
  induction l with
  | nil => simp
  | cons hd tl ih =>
    rw [List.length_cons, List.range_succ_eq_map, List.map_cons, List.map_map]
    rw [List.getD_cons_zero]
    refine congrArg (hd :: ·) ?_
    have hfun : ((fun i => (hd :: tl).getD i d) ∘ Nat.succ) = (fun i => tl.getD i d) := by
      funext i
      simp [List.getD_cons_succ]
    rw [hfun, ih]

lemma countP_getD_range {α : Type} (p : α → Bool) (l : List α) (d : α) :
    List.countP (fun i => p (l.getD i d)) (List.range l.length) = List.countP p l := by
  conv_rhs => rw [← map_getD_range l d]
  rw [List.countP_map]
  rfl

lemma countP_add_countP_not {α : Type} (p : α → Bool) (l : List α) :
    List.countP p l + List.countP (fun a => !(p a)) l = l.length := by
  induction l with
  | nil => simp
  | cons hd tl ih =>
    rw [List.countP_cons, List.countP_cons, List.length_cons]
    cases h : p hd <;> simp [h] <;> omega

lemma open_cell_fields (g : Grid) (i : Nat) :
    (open_cell g i).cells.length = g.cells.length ∧
    (open_cell g i).cur_row = g.cur_row ∧
    (open_cell g i).cur_col = g.cur_col ∧
    (open_cell g i).mines_count = g.mines_count := by
  simp only [open_cell]
  split <;> simp

lemma open_cell_getD (g : Grid) (i j : Nat) :
    (open_cell g i).cells.getD j dummyCell =
      if i = j ∧ i < g.cells.length then openify (g.cells.getD j dummyCell)
      else g.cells.getD j dummyCell := by
  simp only [open_cell]
  by_cases hop : (g.cells.getD i dummyCell).isOpen = true
  · rw [if_pos hop]
    by_cases hc : i = j ∧ i < g.cells.length
    · rw [if_pos hc]
      rcases hc with ⟨rfl, hlt⟩
      exact (openify_eq_self _ hop).symm
    · rw [if_neg hc]
  · rw [if_neg hop]
    dsimp only
    rw [getD_set]
    by_cases hc : i = j ∧ i < g.cells.length
    · rw [if_pos hc, if_pos hc]
      rcases hc with ⟨rfl, hlt⟩
      rfl
    · rw [if_neg hc, if_neg hc]

lemma open_cell_count (g : Grid) (i : Nat) :
    (open_cell g i).open_cells_count =
      g.open_cells_count + (if (g.cells.getD i dummyCell).isOpen then 0 else 1) := by
  simp only [open_cell]
  split <;> simp_all

lemma foldl_open_fields (ixs : List Nat) (g : Grid) :
    ((List.foldl open_cell g ixs).cells.length = g.cells.length) ∧
    ((List.foldl open_cell g ixs).cur_row = g.cur_row) ∧
    ((List.foldl open_cell g ixs).cur_col = g.cur_col) ∧
    ((List.foldl open_cell g ixs).mines_count = g.mines_count) := by
  induction ixs generalizing g with
  | nil => simp
  | cons x rest ih =>
    rw [List.foldl_cons]
    have hx := open_cell_fields g x
    have hr := ih (open_cell g x)
    exact ⟨hr.1.trans hx.1, hr.2.1.trans hx.2.1, hr.2.2.1.trans hx.2.2.1,
      hr.2.2.2.trans hx.2.2.2⟩

lemma foldl_open_getD (ixs : List Nat) (g : Grid) (j : Nat) :
    (List.foldl open_cell g ixs).cells.getD j dummyCell =
      if j ∈ ixs ∧ j < g.cells.length then openify (g.cells.getD j dummyCell)
      else g.cells.getD j dummyCell := by
  induction ixs generalizing g with
  | nil => simp
  | cons x rest ih =>
    rw [List.foldl_cons, ih (open_cell g x), (open_cell_fields g x).1,
      open_cell_getD]
    by_cases hjx : x = j
    · subst hjx
      by_cases hj : x < g.cells.length
      · by_cases hjr : x ∈ rest
        · simp [hj, hjr, openify_idem]
        · simp [hj, hjr]
      · simp [hj]
    · by_cases hj : j < g.cells.length
      · by_cases hjr : j ∈ rest
        · simp [hj, hjr, hjx, List.mem_cons, Ne.symm hjx]
        · simp [hj, hjr, hjx, List.mem_cons, Ne.symm hjx]
      · simp [hj, hjx]

lemma foldl_open_count (ixs : List Nat) (g : Grid) (hnd : ixs.Nodup) :
    (List.foldl open_cell g ixs).open_cells_count =
      g.open_cells_count +
        List.countP (fun i => !(g.cells.getD i dummyCell).isOpen) ixs := by
  induction ixs generalizing g with
  | nil => simp
  | cons x rest ih =>
    rw [List.foldl_cons, List.countP_cons]
    obtain ⟨hx, hrest⟩ := List.nodup_cons.mp hnd
    rw [ih (open_cell g x) hrest, open_cell_count]
    have hcong : List.countP (fun i => !((open_cell g x).cells.getD i dummyCell).isOpen) rest
        = List.countP (fun i => !(g.cells.getD i dummyCell).isOpen) rest := by
      apply List.countP_congr
      intro i hi
      have hne : ¬ (x = i ∧ x < g.cells.length) := by
        rintro ⟨rfl, hlt⟩
        exact hx hi
      rw [open_cell_getD, if_neg hne]
    rw [hcong]
    cases h : (g.cells.getD x dummyCell).isOpen <;> simp [h] <;> omega

lemma reveal_all_spec (g : Grid) (hlen : g.cells.length = ROWS * COLS) :
    reveal_all g =
      { g with
        cells := g.cells.map openify
        open_cells_count := g.open_cells_count + List.countP (fun c => !c.isOpen) g.cells } := by
  unfold reveal_all
  apply grid_ext
  · dsimp only
    have hl1 : (List.foldl open_cell g (List.range (ROWS * COLS))).cells.length
        = g.cells.length := (foldl_open_fields _ g).1
    apply List.ext_getElem
    · simp [hl1]
    · intro n h1 h2
      have hn : n < g.cells.length := by rw [hl1] at h1; exact h1
      rw [← List.getD_eq_getElem _ dummyCell h1, foldl_open_getD,
        if_pos ⟨List.mem_range.mpr (hlen ▸ hn), hn⟩, List.getElem_map,
        List.getD_eq_getElem _ _ hn]
  · exact (foldl_open_fields _ g).2.1
  · exact (foldl_open_fields _ g).2.2.1
  · exact (foldl_open_fields _ g).2.2.2
  · dsimp only
    rw [foldl_open_count _ g (List.nodup_range _), ← hlen]
    exact congrArg (g.open_cells_count + ·) (countP_getD_range (fun c => !c.isOpen) g.cells dummyCell)

lemma cell_at_eq_some (g : Grid) (r c : Nat) (cell : Cell)
    (h : cell_at g r c = some cell) :
    r * COLS + c < ROWS * COLS ∧ g.cells.getD (r * COLS + c) dummyCell = cell := by
  unfold cell_at at h
  dsimp only at h
  split at h
  · exact ⟨‹_›, Option.some.inj h⟩
  · cases h

lemma set_cell_fields (g : Grid) (r c : Nat) (t : Cell_Type) :
    (set_cell g r c t).cells.length = g.cells.length ∧
    (set_cell g r c t).cur_row = g.cur_row ∧
    (set_cell g r c t).cur_col = g.cur_col ∧
    (set_cell g r c t).mines_count = g.mines_count ∧
    (set_cell g r c t).open_cells_count = g.open_cells_count := by
  simp [set_cell]

lemma set_cell_countMines (g : Grid) (r c : Nat)
    (hidx : r * COLS + c < g.cells.length)
    (hnm : ¬ (g.cells.getD (r * COLS + c) dummyCell).type = Cell_Type.MINE) :
    countMines (set_cell g r c Cell_Type.MINE).cells = countMines g.cells + 1 := by
  have hp : (fun cl => decide (cl.type = Cell_Type.MINE))
      (g.cells.getD (r * COLS + c) dummyCell) = false := by
    simpa using hnm
  unfold set_cell countMines
  dsimp only
  rw [countP_set_of_not _ _ _ _ dummyCell hidx hp]
  simp

lemma set_cell_pristine (g : Grid) (r c : Nat) (hidx : r * COLS + c < g.cells.length)
    (hpr : Pristine g.cells) : Pristine (set_cell g r c Cell_Type.MINE).cells := by
  intro x hx
  rcases List.mem_or_eq_of_mem_set hx with hmem | heq
  · exact hpr x hmem
  · subst heq
    have hold : g.cells.getD (r * COLS + c) dummyCell ∈ g.cells := by
      rw [List.getD_eq_getElem _ _ hidx]
      exact List.getElem_mem hidx
    obtain ⟨h1, h2, _⟩ := hpr _ hold
    exact ⟨h1, h2, by simp⟩

lemma countEmpty_of_pristine (l : List Cell) (hpr : Pristine l) :
    countEmpty l + countMines l = l.length := by
  unfold countEmpty countMines
  have h1 : List.countP (fun c => decide (c.type = Cell_Type.EMPTY)) l
      = List.countP (fun c => !(decide (c.type = Cell_Type.MINE))) l := by
    apply List.countP_congr
    intro x hx
    obtain ⟨_, _, hc⟩ := hpr x hx
    cases htype : x.type <;> simp_all
  rw [h1, Nat.add_comm]
  exact countP_add_countP_not _ l

lemma randomize_go_sound (entropy : List Nat) (g : Grid) (placed : Nat) :
    ∀ gr, randomize_go entropy g placed = some gr →
      g.cells.length = ROWS * COLS →
      countMines g.cells = placed →
      placed ≤ g.mines_count →
      Pristine g.cells →
      gr.cells.length = ROWS * COLS ∧ Pristine gr.cells ∧
      countMines gr.cells = g.mines_count ∧ gr.mines_count = g.mines_count ∧
      gr.cur_row = g.cur_row ∧ gr.cur_col = g.cur_col ∧
      gr.open_cells_count = g.open_cells_count := by
  induction entropy, g, placed using randomize_go.induct with
  | case1 grid placed hlt r1 r2 rest rr cc cell hcell hmine ih =>
    intro gr hgo hlen hcnt hple hpr
    rw [randomize_go] at hgo
    rw [if_pos hlt] at hgo
    simp only [hcell, hmine, if_pos] at hgo
    exact ih gr hgo hlen hcnt hple hpr
  | case2 grid placed hlt r1 r2 rest rr cc cell hcell hmine ih =>
    intro gr hgo hlen hcnt hple hpr
    rw [randomize_go] at hgo
    rw [if_pos hlt] at hgo
    simp only [hcell, hmine, if_neg] at hgo
    obtain ⟨hidx, hcellD⟩ := cell_at_eq_some _ _ _ _ hcell
    have hidx2 : randi r1 (ROWS - 1) * COLS + randi r2 (COLS - 1) < grid.cells.length := by
      rw [hlen]; exact hidx
    have hfields := set_cell_fields grid (randi r1 (ROWS - 1)) (randi r2 (COLS - 1))
      Cell_Type.MINE
    obtain ⟨hg1, hg2, hg3, hg4, hg5, hg6, hg7⟩ := ih gr hgo
      (hfields.1.trans hlen)
      (by
        rw [set_cell_countMines _ _ _ hidx2 (by rw [hcellD]; exact hmine), hcnt])
      (by rw [hfields.2.2.2.1]; exact hlt)
      (set_cell_pristine _ _ _ hidx2 hpr)
    refine ⟨hg1, hg2, ?_, ?_, ?_, ?_, ?_⟩
    · rw [hg3, hfields.2.2.2.1]
    · rw [hg4, hfields.2.2.2.1]
    · rw [hg5, hfields.2.1]
    · rw [hg6, hfields.2.2.1]
    · rw [hg7, hfields.2.2.2.2]
  | case3 grid placed hlt r1 r2 rest rr cc hcell =>
    intro gr hgo hlen hcnt hple hpr
    rw [randomize_go] at hgo
    rw [if_pos hlt] at hgo
    simp only [hcell] at hgo
    exact Option.noConfusion hgo
  | case4 entropy grid placed hlt hshape =>
    intro gr hgo hlen hcnt hple hpr
    rcases entropy with _ | ⟨r1, rest1⟩
    · simp [randomize_go.eq_def, hlt] at hgo
    · rcases rest1 with _ | ⟨r2, rest⟩
      · simp [randomize_go.eq_def, hlt] at hgo
      · exact (hshape r1 r2 rest rfl).elim
  | case5 entropy grid placed hlt =>
    intro gr hgo hlen hcnt hple hpr
    rw [randomize_go.eq_def] at hgo
    simp only [if_neg hlt, Option.some.injEq] at hgo
    subst hgo
    exact ⟨hlen, hpr, by omega, rfl, rfl, rfl, rfl⟩

lemma init_grid_spec (g0 : Grid) (n : Nat) (e : List Nat) (gr : Grid)
    (h : init_grid g0 n e = some gr) :
    gr.cells.length = ROWS * COLS ∧ Pristine gr.cells ∧
    countMines gr.cells = n ∧ countEmpty gr.cells = ROWS * COLS - n ∧
    gr.mines_count = n ∧ gr.cur_row = 0 ∧ gr.cur_col = 0 ∧
    gr.open_cells_count = 0 := by
  unfold init_grid randomize_grid clear_grid at h
  obtain ⟨h1, h2, h3, h4, h5, h6, h7⟩ := randomize_go_sound e _ 0 gr h
    (by simp)
    (by simp [countMines, dummyCell, List.countP_replicate])
    (Nat.zero_le _)
    (by
      intro x hx
      rw [List.mem_replicate] at hx
      rw [hx.2]
      exact ⟨rfl, rfl, by simp [dummyCell]⟩)
  have h3n : countMines gr.cells = n := h3
  have h4n : gr.mines_count = n := h4
  have h5n : gr.cur_row = 0 := h5
  have h6n : gr.cur_col = 0 := h6
  have h7n : gr.open_cells_count = 0 := h7
  have hemp := countEmpty_of_pristine gr.cells h2
  exact ⟨h1, h2, h3n, by omega, h4n, h5n, h6n, h7n⟩

/-- A fresh never-used grid value, used as the engine state before the
first initialization in concrete witnesses. -/
def blankGrid : Grid :=
  { cells := []
    cur_row := 0
    cur_col := 0
    mines_count := 0
    open_cells_count := 0 }

/-- The grid produced by init_grid blankGrid 2 [0,0,0,1]: mines at
(0,0) and (0,1), everything else empty and concealed. -/
def witnessGridTwoMines : Grid :=
  { cells := ⟨Cell_Type.MINE, false, false⟩ :: ⟨Cell_Type.MINE, false, false⟩ ::
      List.replicate 98 dummyCell
    cur_row := 0
    cur_col := 0
    mines_count := 2
    open_cells_count := 0 }

/-- Claim C1: for every mine_count with 0 <= mine_count < W*H (W = 10,
H = 10), after initialize(mine_count) completes, the grid contains
exactly mine_count cells of kind Mine and the remaining W*H -
mine_count cells have kind Empty; mines occupy distinct array slots,
so no placement is a duplicate. -/
theorem C1_init_exact_mine_count (g0 : Grid) (n : Nat) (e : List Nat) (gr : Grid)
    (hn : n < ROWS * COLS) (h : init_grid g0 n e = some gr) :
    gr.cells.length = ROWS * COLS ∧ countMines gr.cells = n ∧
    countEmpty gr.cells = ROWS * COLS - n := by
  obtain ⟨h1, _, h3, h4, _⟩ := init_grid_spec g0 n e gr h
  exact ⟨h1, h3, h4⟩

theorem C1_witness :
    witnessGridTwoMines.cells.length = ROWS * COLS ∧
    countMines witnessGridTwoMines.cells = 2 ∧
    countEmpty witnessGridTwoMines.cells = ROWS * COLS - 2 :=
  C1_init_exact_mine_count blankGrid 2 [0, 0, 0, 1] witnessGridTwoMines
    (by decide) (by decide)

/-- Claim C9: reset(mine_count) is init_grid on the current grid, and
its result coincides with initialize(mine_count) on any other grid
state whatsoever (all prior revealed, flagged, cursor and counter
state is discarded); on success every cell is concealed and unflagged,
revealed_count is 0, and the cursor is at (0,0). -/
theorem C9_reset_equals_fresh_init (g g2 : Grid) (n : Nat) (e : List Nat)
    (hn : n < ROWS * COLS) :
    init_grid g n e = init_grid g2 n e ∧
    ∀ gr, init_grid g n e = some gr →
      (∀ c ∈ gr.cells, c.isOpen = false ∧ c.flag = false) ∧
      gr.open_cells_count = 0 ∧ gr.cur_row = 0 ∧ gr.cur_col = 0 := by
  constructor
  · rfl
  · intro gr h
    obtain ⟨_, h2, _, _, _, h5, h6, h7⟩ := init_grid_spec g n e gr h
    exact ⟨fun c hc => ⟨(h2 c hc).1, (h2 c hc).2.1⟩, h7, h5, h6⟩

/-- A deliberately dirty grid state: opened and flagged cells, cursor
away from the origin, nonzero counters. -/
def dirtyGrid : Grid :=
  { cells := ⟨Cell_Type.MINE, true, true⟩ :: List.replicate 99 ⟨Cell_Type.EMPTY, true, false⟩
    cur_row := 7
    cur_col := 3
    mines_count := 1
    open_cells_count := 100 }

theorem C9_witness :
    init_grid dirtyGrid 1 [0, 0] = init_grid blankGrid 1 [0, 0] ∧
    ∀ gr, init_grid dirtyGrid 1 [0, 0] = some gr →
      (∀ c ∈ gr.cells, c.isOpen = false ∧ c.flag = false) ∧
      gr.open_cells_count = 0 ∧ gr.cur_row = 0 ∧ gr.cur_col = 0 :=
  C9_reset_equals_fresh_init dirtyGrid blankGrid 1 [0, 0] (by decide)

lemma randomize_go_none (entropy : List Nat) (g : Grid) (placed : Nat) :
    g.cells.length = ROWS * COLS →
    countMines g.cells = placed →
    ROWS * COLS < g.mines_count →
    randomize_go entropy g placed = none := by
  induction entropy, g, placed using randomize_go.induct with
  | case1 grid placed hlt r1 r2 rest rr cc cell hcell hmine ih =>
    intro hlen hcnt hgt
    rw [randomize_go, if_pos hlt]
    simp only [hcell, hmine, if_pos]
    exact ih hlen hcnt hgt
  | case2 grid placed hlt r1 r2 rest rr cc cell hcell hmine ih =>
    intro hlen hcnt hgt
    rw [randomize_go, if_pos hlt]
    simp only [hcell, hmine, if_neg]
    obtain ⟨hidx, hcellD⟩ := cell_at_eq_some _ _ _ _ hcell
    have hidx2 : randi r1 (ROWS - 1) * COLS + randi r2 (COLS - 1) < grid.cells.length := by
      rw [hlen]; exact hidx
    have hfields := set_cell_fields grid (randi r1 (ROWS - 1)) (randi r2 (COLS - 1))
      Cell_Type.MINE
    exact ih (hfields.1.trans hlen)
      (by rw [set_cell_countMines _ _ _ hidx2 (by rw [hcellD]; exact hmine), hcnt])
      (by rw [hfields.2.2.2.1]; exact hgt)
  | case3 grid placed hlt r1 r2 rest rr cc hcell =>
    intro hlen hcnt hgt
    rw [randomize_go, if_pos hlt]
    simp only [hcell]
  | case4 entropy grid placed hlt hshape =>
    intro hlen hcnt hgt
    rcases entropy with _ | ⟨r1, rest1⟩
    · simp [randomize_go.eq_def, hlt]
    · rcases rest1 with _ | ⟨r2, rest⟩
      · simp [randomize_go.eq_def, hlt]
      · exact (hshape r1 r2 rest rfl).elim
  | case5 entropy grid placed hlt =>
    intro hlen hcnt hgt
    exfalso
    have hle : countMines grid.cells ≤ grid.cells.length := List.countP_le_length _
    omega

/-- The rand() results that enumerate all 100 cells in row-major
order: the pair for cell i is (i / 10, i % 10). -/
def fullEntropy : List Nat :=
  ((List.range 100).map (fun i => [i / 10, i % 10])).flatten

/-- The grid with a mine in all 100 cells, mines_count 100. -/
def allMinesGrid : Grid :=
  { cells := List.replicate 100 ⟨Cell_Type.MINE, false, false⟩
    cur_row := 0
    cur_col := 0
    mines_count := 100
    open_cells_count := 0 }

set_option maxRecDepth 8000 in
set_option maxHeartbeats 1000000 in
lemma init_full_all_mines :
    init_grid blankGrid (ROWS * COLS) fullEntropy = some allMinesGrid := by
  decide

/-- The result of init_grid does not depend on the incoming grid,
because clear_grid rebuilds every field that init_grid does not
overwrite. -/
lemma init_grid_indep (g g2 : Grid) (n : Nat) (e : List Nat) :
    init_grid g n e = init_grid g2 n e := rfl

/-- Claim C3 counterexample: mine_count = W*H = 100 lies outside the
claimed valid range [0, W*H), yet init_grid on a dirty grid succeeds
(given entropy that visits every cell) and replaces the state, rather
than failing with InvalidConfig and leaving the grid unchanged. -/
theorem C3_counterexample :
    init_grid dirtyGrid (ROWS * COLS) fullEntropy = some allMinesGrid ∧
    allMinesGrid ≠ dirtyGrid := by
  constructor
  · exact (init_grid_indep dirtyGrid blankGrid _ _).trans init_full_all_mines
  · decide

/-- Claim C3 (amended): init_grid (used both for initialize and for
reset) performs no validation of mine_count and has no InvalidConfig
failure.  For mine_count greater than W*H the placement loop can never
complete, whatever entropy the random source supplies (the C program
loops forever); for mine_count equal to W*H — also outside the claimed
valid range — the call can succeed, discarding the prior state and
producing a grid whose every cell is a Mine. -/
theorem C3_amended_no_validation (g : Grid) (n : Nat) (e : List Nat)
    (hgt : ROWS * COLS < n) :
    init_grid g n e = none ∧
    init_grid g (ROWS * COLS) fullEntropy = some allMinesGrid := by
  constructor
  · unfold init_grid randomize_grid clear_grid
    apply randomize_go_none
    · simp
    · simp [countMines, dummyCell, List.countP_replicate]
    · exact hgt
  · exact (init_grid_indep g blankGrid _ _).trans init_full_all_mines

theorem C3_witness :
    init_grid blankGrid 101 [] = none ∧
    init_grid blankGrid (ROWS * COLS) fullEntropy = some allMinesGrid :=
  C3_amended_no_validation blankGrid 101 [] (by decide)

lemma move_cursor_bounds (g : Grid) (d : Direction)
    (hr : g.cur_row < ROWS) (hc : g.cur_col < COLS) :
    (move_cursor g d).cur_row < ROWS ∧ (move_cursor g d).cur_col < COLS := by
  simp only [ROWS, COLS] at hr hc ⊢
  cases d <;> (simp only [move_cursor, ROWS, COLS]; split) <;> (try dsimp only) <;> omega

/-- Claim C6: starting from any state with an in-bounds cursor, every
sequence of move_cursor calls keeps the cursor inside [0,H) x [0,W),
and a move against a boundary leaves the whole state unchanged (a
no-op, never an error). -/
theorem C6_cursor_in_bounds (g : Grid) (ds : List Direction)
    (hr : g.cur_row < ROWS) (hc : g.cur_col < COLS) :
    ((List.foldl move_cursor g ds).cur_row < ROWS ∧
     (List.foldl move_cursor g ds).cur_col < COLS) ∧
    (g.cur_row = 0 → move_cursor g Direction.Up = g) ∧
    (g.cur_row = ROWS - 1 → move_cursor g Direction.Down = g) ∧
    (g.cur_col = 0 → move_cursor g Direction.Left = g) ∧
    (g.cur_col = COLS - 1 → move_cursor g Direction.Right = g) := by
  refine ⟨?_, ?_, ?_, ?_, ?_⟩
  · induction ds generalizing g with
    | nil => exact ⟨hr, hc⟩
    | cons d rest ih =>
      rw [List.foldl_cons]
      have hb := move_cursor_bounds g d hr hc
      exact ih (move_cursor g d) hb.1 hb.2
  · intro h
    simp [move_cursor, h]
  · intro h
    have : ¬ g.cur_row < ROWS - 1 := by omega
    simp [move_cursor, this]
  · intro h
    simp [move_cursor, h]
  · intro h
    have : ¬ g.cur_col < COLS - 1 := by omega
    simp [move_cursor, this]

theorem C6_witness :
    ((List.foldl move_cursor blankGrid
        [Direction.Up, Direction.Left, Direction.Down, Direction.Right,
         Direction.Right]).cur_row < ROWS ∧
     (List.foldl move_cursor blankGrid
        [Direction.Up, Direction.Left, Direction.Down, Direction.Right,
         Direction.Right]).cur_col < COLS) ∧
    (blankGrid.cur_row = 0 → move_cursor blankGrid Direction.Up = blankGrid) ∧
    (blankGrid.cur_row = ROWS - 1 → move_cursor blankGrid Direction.Down = blankGrid) ∧
    (blankGrid.cur_col = 0 → move_cursor blankGrid Direction.Left = blankGrid) ∧
    (blankGrid.cur_col = COLS - 1 → move_cursor blankGrid Direction.Right = blankGrid) :=
  C6_cursor_in_bounds blankGrid
    [Direction.Up, Direction.Left, Direction.Down, Direction.Right, Direction.Right]
    (by decide) (by decide)

lemma count_nbors_go_spec (grid : Grid) (row col : Nat)
    (hlen : grid.cells.length = ROWS * COLS) :
    ∀ (offs : List (Int × Int)) (acc : Nat),
      count_nbors_go grid row col offs acc =
        some (acc + List.countP (mine_at grid row col)
          (offs.filter (offset_in_bounds row col))) := by
  intro offs
  induction offs with
  | nil =>
    intro acc
    simp [count_nbors_go]
  | cons p rest ih =>
    intro acc
    rw [count_nbors_go]
    by_cases hb : offset_in_bounds row col p = true
    · have hb2 : 0 ≤ (row : Int) + p.1 ∧ (row : Int) + p.1 < (ROWS : Int) ∧
          0 ≤ (col : Int) + p.2 ∧ (col : Int) + p.2 < (COLS : Int) := by
        simpa [offset_in_bounds] using hb
      have hcond : ¬ ((row : Int) + p.1 < 0 ∨ (row : Int) + p.1 ≥ (ROWS : Int) ∨
          (col : Int) + p.2 < 0 ∨ (col : Int) + p.2 ≥ (COLS : Int)) := by
        push_neg
        exact ⟨hb2.1, hb2.2.1, hb2.2.2.1, hb2.2.2.2⟩
      rw [if_neg hcond]
      have hidx : ((row : Int) + p.1).toNat * COLS + ((col : Int) + p.2).toNat
          < ROWS * COLS := by
        obtain ⟨h1, h2, h3, h4⟩ := hb2
        simp only [ROWS, COLS] at h2 h4 ⊢
        omega
      have hcell : cell_at grid ((row : Int) + p.1).toNat ((col : Int) + p.2).toNat
          = some (grid.cells.getD
              (((row : Int) + p.1).toNat * COLS + ((col : Int) + p.2).toNat) dummyCell) := by
        unfold cell_at
        rw [if_pos hidx]
      rw [List.filter_cons_of_pos hb]
      simp only [hcell]
      by_cases hm : (grid.cells.getD
          (((row : Int) + p.1).toNat * COLS + ((col : Int) + p.2).toNat) dummyCell).type
          = Cell_Type.MINE
      · rw [if_pos hm, ih (acc + 1), List.countP_cons]
        have hq : mine_at grid row col p = true := by
          simp only [mine_at]
          exact decide_eq_true hm
        rw [hq]
        simp only [if_true]
        exact congrArg some (by omega)
      · rw [if_neg hm, ih acc, List.countP_cons]
        have hq : mine_at grid row col p = false := by
          simp only [mine_at]
          exact decide_eq_false hm
        rw [hq]
        simp
    · have hcond : (row : Int) + p.1 < 0 ∨ (row : Int) + p.1 ≥ (ROWS : Int) ∨
          (col : Int) + p.2 < 0 ∨ (col : Int) + p.2 ≥ (COLS : Int) := by
        simp only [offset_in_bounds, decide_eq_true_eq] at hb
        push_neg at hb
        omega
      rw [if_pos hcond, List.filter_cons_of_neg (by simpa using hb), ih acc]

/-- Claim C7: for every in-bounds (row, col), neighbor_mine_count
returns the number of Mine cells among the in-bounds Moore
neighbourhood positions, a value at most 8; a corner cell considers
exactly 3 in-bounds neighbour positions, an edge (non-corner) cell
exactly 5, an interior cell exactly 8, and out-of-bounds neighbour
positions contribute nothing. -/
theorem C7_neighbor_count (grid : Grid) (row col : Nat)
    (hlen : grid.cells.length = ROWS * COLS) (hr : row < ROWS) (hc : col < COLS) :
    count_nbors grid row col =
      some (List.countP (mine_at grid row col) (inb_nbors row col)) ∧
    List.countP (mine_at grid row col) (inb_nbors row col) ≤ 8 ∧
    ((row = 0 ∨ row = ROWS - 1) ∧ (col = 0 ∨ col = COLS - 1) →
      (inb_nbors row col).length = 3) ∧
    (((row = 0 ∨ row = ROWS - 1) ∧ 0 < col ∧ col < COLS - 1) ∨
      ((col = 0 ∨ col = COLS - 1) ∧ 0 < row ∧ row < ROWS - 1) →
      (inb_nbors row col).length = 5) ∧
    (0 < row ∧ row < ROWS - 1 ∧ 0 < col ∧ col < COLS - 1 →
      (inb_nbors row col).length = 8) := by
  refine ⟨?_, ?_, ?_, ?_, ?_⟩
  · unfold count_nbors
    rw [count_nbors_go_spec grid row col hlen nbor_offsets 0]
    rw [Nat.zero_add]
    rfl
  · calc List.countP (mine_at grid row col) (inb_nbors row col)
        ≤ (inb_nbors row col).length := List.countP_le_length _
      _ ≤ nbor_offsets.length := List.length_filter_le _ _
      _ ≤ 8 := by decide
  · exact (by decide :
      ∀ r, r < 10 → ∀ c, c < 10 →
        ((r = 0 ∨ r = 9) ∧ (c = 0 ∨ c = 9) → (inb_nbors r c).length = 3))
      row hr col hc
  · exact (by decide :
      ∀ r, r < 10 → ∀ c, c < 10 →
        (((r = 0 ∨ r = 9) ∧ 0 < c ∧ c < 9) ∨ ((c = 0 ∨ c = 9) ∧ 0 < r ∧ r < 9) →
          (inb_nbors r c).length = 5))
      row hr col hc
  · exact (by decide :
      ∀ r, r < 10 → ∀ c, c < 10 →
        (0 < r ∧ r < 9 ∧ 0 < c ∧ c < 9 → (inb_nbors r c).length = 8))
      row hr col hc

theorem C7_witness :
    count_nbors witnessGridTwoMines 1 1 =
      some (List.countP (mine_at witnessGridTwoMines 1 1) (inb_nbors 1 1)) ∧
    List.countP (mine_at witnessGridTwoMines 1 1) (inb_nbors 1 1) ≤ 8 ∧
    ((1 = 0 ∨ 1 = ROWS - 1) ∧ (1 = 0 ∨ 1 = COLS - 1) → (inb_nbors 1 1).length = 3) ∧
    (((1 = 0 ∨ 1 = ROWS - 1) ∧ 0 < 1 ∧ 1 < COLS - 1) ∨
      ((1 = 0 ∨ 1 = COLS - 1) ∧ 0 < 1 ∧ 1 < ROWS - 1) → (inb_nbors 1 1).length = 5) ∧
    (0 < 1 ∧ 1 < ROWS - 1 ∧ 0 < 1 ∧ 1 < COLS - 1 → (inb_nbors 1 1).length = 8) :=
  C7_neighbor_count witnessGridTwoMines 1 1 (by decide) (by decide) (by decide)

/-- Claim C8 counterexample: the out-of-bounds query (row, col) =
(0, 10) on the all-mines grid does not fail an assertion; it silently
clips and returns the count 2 (the mines at (0,9) and (1,9)). -/
theorem C8_counterexample :
    count_nbors allMinesGrid 0 10 = some 2 := by
  decide

/-- Claim C8 (amended): neighbor_mine_count never reaches the cell_at
assertion, in or out of bounds: its loop tests bounds before reading,
so for every (row, col) it returns some count — the number of Mine
cells among the in-bounds Moore neighbour positions, with every
out-of-bounds position (including positions around an out-of-bounds
centre) silently contributing nothing. -/
theorem C8_amended_never_asserts (grid : Grid) (row col : Nat)
    (hlen : grid.cells.length = ROWS * COLS) :
    count_nbors grid row col =
      some (List.countP (mine_at grid row col) (inb_nbors row col)) := by
  unfold count_nbors
  rw [count_nbors_go_spec grid row col hlen nbor_offsets 0]
  rw [Nat.zero_add]
  rfl

theorem C8_witness :
    count_nbors allMinesGrid 5 50 =
      some (List.countP (mine_at allMinesGrid 5 50) (inb_nbors 5 50)) :=
  C8_amended_never_asserts allMinesGrid 5 50 (by decide)

/-- A grid whose cursor sits on an already-revealed Mine at (1,1)
while the other 99 cells are still concealed. -/
def openMineGrid : Grid :=
  { cells := List.replicate 11 dummyCell ++
      ⟨Cell_Type.MINE, true, false⟩ :: List.replicate 88 dummyCell
    cur_row := 1
    cur_col := 1
    mines_count := 1
    open_cells_count := 1 }

/-- The grid openMineGrid after the reveal-all loop: every cell open. -/
def openMineGridRevealed : Grid :=
  { cells := List.replicate 11 ⟨Cell_Type.EMPTY, true, false⟩ ++
      ⟨Cell_Type.MINE, true, false⟩ :: List.replicate 88 ⟨Cell_Type.EMPTY, true, false⟩
    cur_row := 1
    cur_col := 1
    mines_count := 1
    open_cells_count := 100 }

/-- Claim C4 counterexample: in the state openMineGrid the cell under
the cursor is already revealed (a Mine), yet reveal_at_cursor is not a
no-op: the mine branch runs again and reveals the whole grid, changing
99 cells and the counter. -/
theorem C4_counterexample :
    reveal openMineGrid = some (openMineGridRevealed, RevealOutcome.AlreadyOpen) ∧
    openMineGridRevealed ≠ openMineGrid := by
  constructor
  · set_option maxRecDepth 8000 in decide
  · decide

/-- Claim C4 (amended): reveal_at_cursor on an already-revealed cell
of kind Empty is a no-op — the state is returned unchanged, the
outcome is AlreadyOpen, so revealed_count and every cell's revealed
and flagged state are untouched.  (When the already-revealed cell is a
Mine the code re-runs the reveal-every-cell loop, which changes the
state whenever some cell is still concealed.) -/
theorem C4_amended_noop_on_revealed_empty (g : Grid)
    (hr : g.cur_row < ROWS) (hc : g.cur_col < COLS)
    (hop : (g.cells.getD (g.cur_row * COLS + g.cur_col) dummyCell).isOpen = true)
    (hemp : (g.cells.getD (g.cur_row * COLS + g.cur_col) dummyCell).type
      = Cell_Type.EMPTY) :
    reveal g = some (g, RevealOutcome.AlreadyOpen) := by
  have hidx : g.cur_row * COLS + g.cur_col < COLS * ROWS := by
    simp only [ROWS, COLS] at hr hc ⊢
    omega
  simp only [List.getD_eq_getElem?_getD] at hop hemp
  unfold reveal
  rw [if_pos hidx]
  simp [hop, hemp]

/-- A grid whose cursor sits on an already-revealed Empty cell. -/
def openEmptyGrid : Grid :=
  { cells := ⟨Cell_Type.EMPTY, true, false⟩ :: List.replicate 99 dummyCell
    cur_row := 0
    cur_col := 0
    mines_count := 0
    open_cells_count := 1 }

theorem C4_witness :
    reveal openEmptyGrid = some (openEmptyGrid, RevealOutcome.AlreadyOpen) :=
  C4_amended_noop_on_revealed_empty openEmptyGrid
    (by decide) (by decide) (by decide) (by decide)

/-- Claim C5: revealing a concealed Empty cell under the cursor
increments revealed_count by exactly 1, reveals only that cell (no
cascade: every other cell keeps its revealed state), changes no flag,
and yields the outcome Opened. -/
theorem C5_reveal_concealed_empty (g : Grid)
    (hlen : g.cells.length = ROWS * COLS)
    (hr : g.cur_row < ROWS) (hc : g.cur_col < COLS)
    (hclosed : (g.cells.getD (g.cur_row * COLS + g.cur_col) dummyCell).isOpen = false)
    (hemp : (g.cells.getD (g.cur_row * COLS + g.cur_col) dummyCell).type
      = Cell_Type.EMPTY) :
    ∃ g2, reveal g = some (g2, RevealOutcome.Opened) ∧
      g2.open_cells_count = g.open_cells_count + 1 ∧
      (g2.cells.getD (g.cur_row * COLS + g.cur_col) dummyCell).isOpen = true ∧
      (∀ j, j ≠ g.cur_row * COLS + g.cur_col →
        g2.cells.getD j dummyCell = g.cells.getD j dummyCell) ∧
      (∀ j, (g2.cells.getD j dummyCell).flag = (g.cells.getD j dummyCell).flag) ∧
      g2.cells.length = g.cells.length ∧
      g2.cur_row = g.cur_row ∧ g2.cur_col = g.cur_col ∧
      g2.mines_count = g.mines_count := by
  have hidx : g.cur_row * COLS + g.cur_col < COLS * ROWS := by
    simp only [ROWS, COLS] at hr hc ⊢
    omega
  have hidxlen : g.cur_row * COLS + g.cur_col < g.cells.length := by
    rw [hlen]
    simp only [ROWS, COLS] at hidx ⊢
    omega
  refine ⟨{ g with
      cells := g.cells.set (g.cur_row * COLS + g.cur_col)
        { g.cells.getD (g.cur_row * COLS + g.cur_col) dummyCell with isOpen := true }
      open_cells_count := g.open_cells_count + 1 }, ?_, rfl, ?_, ?_, ?_,
    List.length_set g.cells _ _, rfl, rfl, rfl⟩
  · rw [List.getD_eq_getElem _ _ hidxlen] at hclosed hemp
    unfold reveal
    rw [if_pos hidx]
    simp [hclosed, hemp, getD_set, hidxlen]
  · dsimp only
    rw [getD_set, if_pos ⟨rfl, hidxlen⟩]
  · intro j hj
    dsimp only
    rw [getD_set, if_neg (fun h => hj h.1.symm)]
  · intro j
    dsimp only
    by_cases hj : j = g.cur_row * COLS + g.cur_col
    · subst hj
      rw [getD_set, if_pos ⟨rfl, hidxlen⟩]
    · rw [getD_set, if_neg (fun h => hj h.1.symm)]

/-- Claim C2 counterexample: in the state openMineGrid the cell under
the cursor has kind Mine but is already revealed; reveal_at_cursor
still ends with every cell revealed, but the outcome is AlreadyOpen,
not Detonated as the claim demands for every state whose cursor cell
is a Mine. -/
theorem C2_counterexample :
    (reveal openMineGrid).map (fun pr => pr.2) = some RevealOutcome.AlreadyOpen ∧
    (reveal openMineGrid).map (fun pr => pr.2) ≠ some RevealOutcome.Detonated := by
  constructor
  · set_option maxRecDepth 8000 in decide
  · set_option maxRecDepth 8000 in decide

/-- Claim C2 (amended): in every well-formed grid state (100-cell
array, revealed_count equal to the number of revealed cells, cursor in
bounds) whose cursor cell has kind Mine and is still concealed,
reveal_at_cursor reveals every cell of the grid, sets revealed_count
to W*H, and returns the outcome Detonated. -/
theorem C2_amended_detonation (g : Grid)
    (hlen : g.cells.length = ROWS * COLS)
    (hcount : g.open_cells_count = List.countP (fun c => c.isOpen) g.cells)
    (hr : g.cur_row < ROWS) (hc : g.cur_col < COLS)
    (hclosed : (g.cells.getD (g.cur_row * COLS + g.cur_col) dummyCell).isOpen = false)
    (hmine : (g.cells.getD (g.cur_row * COLS + g.cur_col) dummyCell).type
      = Cell_Type.MINE) :
    ∃ g2, reveal g = some (g2, RevealOutcome.Detonated) ∧
      (∀ c ∈ g2.cells, c.isOpen = true) ∧
      g2.open_cells_count = ROWS * COLS := by
  have hidx : g.cur_row * COLS + g.cur_col < COLS * ROWS := by
    simp only [ROWS, COLS] at hr hc ⊢
    omega
  have hidxlen : g.cur_row * COLS + g.cur_col < g.cells.length := by
    rw [hlen]
    simp only [ROWS, COLS] at hidx ⊢
    omega
  have hlen1 : ({ g with
      cells := g.cells.set (g.cur_row * COLS + g.cur_col)
        { g.cells.getD (g.cur_row * COLS + g.cur_col) dummyCell with isOpen := true }
      open_cells_count := g.open_cells_count + 1 } : Grid).cells.length
      = ROWS * COLS := by
    dsimp only
    rw [List.length_set]
    exact hlen
  have hspec := reveal_all_spec
    { g with
      cells := g.cells.set (g.cur_row * COLS + g.cur_col)
        { g.cells.getD (g.cur_row * COLS + g.cur_col) dummyCell with isOpen := true }
      open_cells_count := g.open_cells_count + 1 }
    hlen1
  refine ⟨reveal_all
    { g with
      cells := g.cells.set (g.cur_row * COLS + g.cur_col)
        { g.cells.getD (g.cur_row * COLS + g.cur_col) dummyCell with isOpen := true }
      open_cells_count := g.open_cells_count + 1 }, ?_, ?_, ?_⟩
  · rw [List.getD_eq_getElem _ _ hidxlen] at hclosed hmine
    unfold reveal
    rw [if_pos hidx]
    simp [hclosed, hmine, getD_set, hidxlen]
  · rw [hspec]
    dsimp only
    intro c hc2
    rw [List.mem_map] at hc2
    obtain ⟨x, _, rfl⟩ := hc2
    rfl
  · rw [hspec]
    dsimp only
    have hopen1 : List.countP (fun c => c.isOpen)
        (g.cells.set (g.cur_row * COLS + g.cur_col)
          { g.cells.getD (g.cur_row * COLS + g.cur_col) dummyCell with isOpen := true })
        = List.countP (fun c => c.isOpen) g.cells + 1 := by
      rw [countP_set_of_not _ _ _ _ dummyCell hidxlen (by exact hclosed)]
      simp
    have htot := countP_add_countP_not (fun c => c.isOpen)
      (g.cells.set (g.cur_row * COLS + g.cur_col)
        { g.cells.getD (g.cur_row * COLS + g.cur_col) dummyCell with isOpen := true })
    rw [hlen1] at htot
    simp only [ROWS, COLS] at htot hcount hopen1 ⊢
    omega

theorem C2_witness :
    ∃ g2, reveal witnessGridTwoMines = some (g2, RevealOutcome.Detonated) ∧
      (∀ c ∈ g2.cells, c.isOpen = true) ∧
      g2.open_cells_count = ROWS * COLS :=
  C2_amended_detonation witnessGridTwoMines
    (by decide) (by decide) (by decide) (by decide) (by decide) (by decide)

/-- The witnessGridTwoMines state with the cursor moved to the
concealed Empty cell (0,2). -/
def witnessGridCursorEmpty : Grid :=
  { witnessGridTwoMines with cur_col := 2 }

theorem C5_witness :
    ∃ g2, reveal witnessGridCursorEmpty = some (g2, RevealOutcome.Opened) ∧
      g2.open_cells_count = witnessGridCursorEmpty.open_cells_count + 1 ∧
      (g2.cells.getD (witnessGridCursorEmpty.cur_row * COLS +
        witnessGridCursorEmpty.cur_col) dummyCell).isOpen = true ∧
      (∀ j, j ≠ witnessGridCursorEmpty.cur_row * COLS + witnessGridCursorEmpty.cur_col →
        g2.cells.getD j dummyCell = witnessGridCursorEmpty.cells.getD j dummyCell) ∧
      (∀ j, (g2.cells.getD j dummyCell).flag =
        (witnessGridCursorEmpty.cells.getD j dummyCell).flag) ∧
      g2.cells.length = witnessGridCursorEmpty.cells.length ∧
      g2.cur_row = witnessGridCursorEmpty.cur_row ∧
      g2.cur_col = witnessGridCursorEmpty.cur_col ∧
      g2.mines_count = witnessGridCursorEmpty.mines_count :=
  C5_reveal_concealed_empty witnessGridCursorEmpty
    (by decide) (by decide) (by decide) (by decide) (by decide)

/-- The inductive invariant of the engine: the cell array has the C
array size, the open counter agrees with the cells, and a revealed
mine forces a fully revealed grid. -/
def StrongInv (g : Grid) : Prop :=
  g.cells.length = ROWS * COLS ∧
  g.open_cells_count = List.countP (fun c => c.isOpen) g.cells ∧
  (MineOpen g → AllOpen g)

instance (g : Grid) : Decidable (MineOpen g) := by
  unfold MineOpen
  infer_instance

lemma init_strong_inv (g0 : Grid) (n : Nat) (e : List Nat) (gr : Grid)
    (h : init_grid g0 n e = some gr) : StrongInv gr := by
  obtain ⟨h1, h2, _, _, _, _, _, h8⟩ := init_grid_spec g0 n e gr h
  refine ⟨h1, ?_, ?_⟩
  · rw [h8]
    symm
    rw [List.countP_eq_zero]
    intro c hc
    simp [(h2 c hc).1]
  · intro hm
    obtain ⟨c, hc, _, hopen⟩ := hm
    rw [(h2 c hc).1] at hopen
    cases hopen

lemma move_strong_inv (g : Grid) (d : Direction) (hinv : StrongInv g) :
    StrongInv (move_cursor g d) := by
  have hcells : (move_cursor g d).cells = g.cells ∧
      (move_cursor g d).open_cells_count = g.open_cells_count := by
    cases d <;> (simp only [move_cursor]; split <;> exact ⟨rfl, rfl⟩)
  obtain ⟨hlen, hcnt, hmo⟩ := hinv
  refine ⟨hcells.1 ▸ hlen, ?_, ?_⟩
  · rw [hcells.1, hcells.2]
    exact hcnt
  · intro hm
    obtain ⟨c, hc, ht, ho⟩ := hm
    rw [hcells.1] at hc
    have hao := hmo ⟨c, hc, ht, ho⟩
    intro x hx
    rw [hcells.1] at hx
    exact hao x hx

lemma toggle_flag_strong_inv (g g2 : Grid) (h : toggle_flag g = some g2)
    (hinv : StrongInv g) : StrongInv g2 := by
  obtain ⟨hlen, hcnt, hmo⟩ := hinv
  unfold toggle_flag at h
  dsimp only at h
  split at h
  case isTrue hidx =>
    rw [Option.some.injEq] at h
    subst h
    have hidxlen : g.cur_row * COLS + g.cur_col < g.cells.length := by
      rw [hlen]
      simp only [ROWS, COLS] at hidx ⊢
      omega
    have holdmem : g.cells.getD (g.cur_row * COLS + g.cur_col) dummyCell ∈ g.cells := by
      rw [List.getD_eq_getElem _ _ hidxlen]
      exact List.getElem_mem hidxlen
    refine ⟨?_, ?_, ?_⟩
    · dsimp only
      rw [List.length_set]
      exact hlen
    · dsimp only
      rw [countP_set_same (fun c => c.isOpen) g.cells (g.cur_row * COLS + g.cur_col)
        { g.cells.getD (g.cur_row * COLS + g.cur_col) dummyCell with
          flag := !(g.cells.getD (g.cur_row * COLS + g.cur_col) dummyCell).flag }
        dummyCell hidxlen rfl]
      exact hcnt
    · intro hm
      have hmg : MineOpen g := by
        obtain ⟨c, hc, ht, ho⟩ := hm
        dsimp only at hc
        rcases List.mem_or_eq_of_mem_set hc with hcm | hce
        · exact ⟨c, hcm, ht, ho⟩
        · subst hce
          exact ⟨g.cells.getD (g.cur_row * COLS + g.cur_col) dummyCell, holdmem, ht, ho⟩
      have hao := hmo hmg
      intro c hc
      dsimp only at hc
      rcases List.mem_or_eq_of_mem_set hc with hcm | hce
      · exact hao c hcm
      · subst hce
        exact hao (g.cells.getD (g.cur_row * COLS + g.cur_col) dummyCell) holdmem
  case isFalse => cases h

lemma reveal_all_strong_inv (g : Grid) (hlen : g.cells.length = ROWS * COLS)
    (hcnt : g.open_cells_count = List.countP (fun c => c.isOpen) g.cells) :
    StrongInv (reveal_all g) := by
  rw [reveal_all_spec g hlen]
  refine ⟨?_, ?_, ?_⟩
  · dsimp only
    rw [List.length_map]
    exact hlen
  · dsimp only
    have htot := countP_add_countP_not (fun c => c.isOpen) g.cells
    have hmap : List.countP (fun c => c.isOpen) (List.map openify g.cells)
        = (List.map openify g.cells).length := by
      rw [List.countP_eq_length]
      intro a ha
      rw [List.mem_map] at ha
      obtain ⟨x, _, rfl⟩ := ha
      rfl
    rw [hmap, List.length_map]
    omega
  · intro _ c hc
    dsimp only at hc
    rw [List.mem_map] at hc
    obtain ⟨x, _, rfl⟩ := hc
    rfl

lemma reveal_strong_inv (g g2 : Grid) (o : RevealOutcome)
    (h : reveal g = some (g2, o)) (hinv : StrongInv g) : StrongInv g2 := by
  obtain ⟨hlen, hcnt, hmo⟩ := hinv
  unfold reveal at h
  dsimp only at h
  split at h
  case isFalse => cases h
  case isTrue hidx =>
    have hidxlen : g.cur_row * COLS + g.cur_col < g.cells.length := by
      rw [hlen]
      simp only [ROWS, COLS] at hidx ⊢
      omega
    have holdmem : g.cells.getD (g.cur_row * COLS + g.cur_col) dummyCell ∈ g.cells := by
      rw [List.getD_eq_getElem _ _ hidxlen]
      exact List.getElem_mem hidxlen
    by_cases hop : (g.cells.getD (g.cur_row * COLS + g.cur_col) dummyCell).isOpen = true
    · simp only [hop, if_true, eq_self_iff_true] at h
      split at h
      next hmine =>
        rw [Option.some.injEq, Prod.mk.injEq] at h
        obtain ⟨hg2, _⟩ := h
        subst hg2
        exact reveal_all_strong_inv g hlen hcnt
      next =>
        rw [Option.some.injEq, Prod.mk.injEq] at h
        obtain ⟨hg2, _⟩ := h
        subst hg2
        exact ⟨hlen, hcnt, hmo⟩
    · simp only [hop, if_false, Bool.false_eq_true] at h
      have hg1len : (g.cells.set (g.cur_row * COLS + g.cur_col)
          { g.cells.getD (g.cur_row * COLS + g.cur_col) dummyCell with
            isOpen := true }).length = ROWS * COLS := by
        rw [List.length_set]
        exact hlen
      have hg1cnt : g.open_cells_count + 1
          = List.countP (fun c => c.isOpen)
              (g.cells.set (g.cur_row * COLS + g.cur_col)
                { g.cells.getD (g.cur_row * COLS + g.cur_col) dummyCell with
                  isOpen := true }) := by
        rw [countP_set_of_not _ _ _ _ dummyCell hidxlen
          (by simp only [Bool.not_eq_true] at hop; exact hop)]
        simp [hcnt]
      split at h
      next hmine =>
        rw [Option.some.injEq, Prod.mk.injEq] at h
        obtain ⟨hg2, _⟩ := h
        subst hg2
        exact reveal_all_strong_inv _ hg1len hg1cnt
      next hnotmine =>
        rw [Option.some.injEq, Prod.mk.injEq] at h
        obtain ⟨hg2, _⟩ := h
        subst hg2
        refine ⟨hg1len, hg1cnt, ?_⟩
        intro hm
        exfalso
        have hnewtype : ((g.cells.set (g.cur_row * COLS + g.cur_col)
            { g.cells.getD (g.cur_row * COLS + g.cur_col) dummyCell with
              isOpen := true }).getD (g.cur_row * COLS + g.cur_col) dummyCell).type
            = (g.cells.getD (g.cur_row * COLS + g.cur_col) dummyCell).type := by
          rw [getD_set, if_pos ⟨rfl, hidxlen⟩]
        obtain ⟨c, hc, ht, ho⟩ := hm
        dsimp only at hc
        rcases List.mem_or_eq_of_mem_set hc with hcm | hce
        · have hmg : MineOpen g := ⟨c, hcm, ht, ho⟩
          have hao := hmo hmg
          have := hao _ holdmem
          rw [this] at hop
          exact hop rfl
        · subst hce
          rw [hnewtype] at hnotmine
          exact hnotmine ht

lemma reachable_strong_inv (g : Grid) (h : Reachable g) : StrongInv g := by
  induction h with
  | init g0 n e gx hinit => exact init_strong_inv g0 n e gx hinit
  | move gx d _ ih => exact move_strong_inv gx d ih
  | reveal_step gx gy o _ hrev ih => exact reveal_strong_inv gx gy o hrev ih
  | flag_step gx gy _ hflag ih => exact toggle_flag_strong_inv gx gy hflag ih
  | reset gx n e gy _ hinit _ => exact init_strong_inv gx n e gy hinit

/-- Claim C10: in every state reachable from an initialization through
any sequence of moves, reveals, flag toggles and resets, a revealed
Mine cell forces the entire grid to be revealed with revealed_count
equal to W*H; the invariant is preserved by every operation. -/
theorem C10_revealed_mine_invariant (g : Grid) (hreach : Reachable g)
    (hmine : MineOpen g) :
    AllOpen g ∧ g.open_cells_count = ROWS * COLS := by
  obtain ⟨hlen, hcnt, hmo⟩ := reachable_strong_inv g hreach
  have hao := hmo hmine
  refine ⟨hao, ?_⟩
  rw [hcnt, List.countP_eq_length.mpr hao]
  exact hlen

/-- The grid produced by init_grid blankGrid 1 [0,0]: one mine at
(0,0), everything concealed. -/
def witnessOneMine : Grid :=
  { cells := ⟨Cell_Type.MINE, false, false⟩ :: List.replicate 99 dummyCell
    cur_row := 0
    cur_col := 0
    mines_count := 1
    open_cells_count := 0 }

/-- The grid witnessOneMine after revealing the mine under the cursor:
every cell open, counter at 100. -/
def witnessDetonated : Grid :=
  { cells := ⟨Cell_Type.MINE, true, false⟩ ::
      List.replicate 99 ⟨Cell_Type.EMPTY, true, false⟩
    cur_row := 0
    cur_col := 0
    mines_count := 1
    open_cells_count := 100 }

theorem C10_witness :
    AllOpen witnessDetonated ∧ witnessDetonated.open_cells_count = ROWS * COLS :=
  C10_revealed_mine_invariant witnessDetonated
    (Reachable.reveal_step witnessOneMine witnessDetonated RevealOutcome.Detonated
      (Reachable.init blankGrid 1 [0, 0] witnessOneMine (by decide))
      (by set_option maxRecDepth 8000 in decide))
    (by decide)

end Mines
